import Mathlib

/-!
Verification development for the PDF form-filling core of the
`Taxation_agent` repository (`src/app11.py`).

The Python source is shallowly embedded: each Python function relevant to
the checked properties is translated into an executable Lean definition
over `List Char` / `String` data.  Python dictionaries are modelled as
association lists with Python-dict update semantics (`insertOv`: replace
the value at an existing key in place, otherwise append at the end), which
preserves both the uniqueness of keys and the insertion order that Python
dictionaries guarantee.  Regular-expression matching is embedded
operationally, following Python's leftmost / lazy / greedy backtracking
semantics for the concrete patterns that appear in the source.
-/

/-! ## Basic character and string utilities -/

/-- ASCII whitespace, matching Python's `\s` class and `str.strip()` on the
ASCII inputs relevant here (space, tab, newline, carriage return, vertical
tab, form feed). -/
def isWsB (c : Char) : Bool :=
  c = ' ' || c = '\t' || c = '\n' || c = '\r' || c = Char.ofNat 11 || c = Char.ofNat 12

/-- Strip characters satisfying `p` from both ends of a character list. -/
def stripBoth (p : Char → Bool) (cs : List Char) : List Char :=
  ((cs.dropWhile p).reverse.dropWhile p).reverse

/-- Python `str.strip()` (whitespace from both ends). -/
def stripWsL (cs : List Char) : List Char :=
  stripBoth isWsB cs

/-- Characters removed by the source's `line.strip("• ")`. -/
def isBulletSpB (c : Char) : Bool :=
  c = '•' || c = ' '

/-- Lower-case a character list (`str.lower()`; ASCII suffices for the
inputs considered here). -/
def lowerL (cs : List Char) : List Char :=
  cs.map Char.toLower

/-- Python `str.split()` (split on whitespace runs, dropping empties). -/
def splitWsAux : List Char → List Char → List (List Char)
  | [], acc => if acc.isEmpty then [] else [acc.reverse]
  | c :: cs, acc =>
    if isWsB c then
      if acc.isEmpty then splitWsAux cs [] else acc.reverse :: splitWsAux cs []
    else
      splitWsAux cs (c :: acc)

def splitWsL (cs : List Char) : List (List Char) :=
  splitWsAux cs []

/-- `" ".join(...)` on token lists. -/
def joinSp (ts : List (List Char)) : List Char :=
  List.intercalate [' '] ts

/-- Python substring test `needle in hay`. -/
def containsSubL (needle : List Char) : List Char → Bool
  | [] => needle.isEmpty
  | h :: t => needle.isPrefixOf (h :: t) || containsSubL needle t

/-- Python `str.splitlines()` restricted to `\n` separators (the texts fed
to the parser are built by joining page texts with `"\n"`). -/
def splitNlAux : List Char → List Char → List (List Char)
  | [], acc => [acc.reverse]
  | c :: cs, acc =>
    if c = '\n' then
      acc.reverse :: (match cs with | [] => [] | _ => splitNlAux cs [])
    else
      splitNlAux cs (c :: acc)

def splitLinesL (cs : List Char) : List (List Char) :=
  match cs with
  | [] => []
  | _ => splitNlAux cs []

/-! ## Association lists with Python `dict` semantics -/

/-- First-match lookup (Python `d[k]` / `d.get(k)`; keys are unique in the
lists built by `insertOv`, so first match is the match). -/
def lookupA {α β : Type} [DecidableEq α] : List (α × β) → α → Option β
  | [], _ => none
  | (k, v) :: t, a => if k = a then some v else lookupA t a

/-- Python `d[k] = v`: replace the value at an existing key in place,
otherwise append the new binding at the end. -/
def insertOv {α β : Type} [DecidableEq α] : List (α × β) → α → β → List (α × β)
  | [], a, b => [(a, b)]
  | (k, v) :: t, a, b => if k = a then (a, b) :: t else (k, v) :: insertOv t a b

theorem lookupA_insertOv_self {α β : Type} [DecidableEq α]
    (l : List (α × β)) (a : α) (b : β) : lookupA (insertOv l a b) a = some b := by
  induction l with
  | nil => simp [insertOv, lookupA]
  | cons p t ih =>
    obtain ⟨k, v⟩ := p
    by_cases h : k = a
    · simp [insertOv, lookupA, h]
    · simp [insertOv, lookupA, h, ih]

theorem lookupA_insertOv_ne {α β : Type} [DecidableEq α]
    (l : List (α × β)) (a a' : α) (b : β) (h : a' ≠ a) :
    lookupA (insertOv l a b) a' = lookupA l a' := by
  have h' : ¬a = a' := fun hc => h hc.symm
  induction l with
  | nil => simp [insertOv, lookupA, h']
  | cons p t ih =>
    obtain ⟨k, v⟩ := p
    by_cases hk : k = a
    · subst hk
      simp only [insertOv, if_pos rfl, lookupA]
      rw [if_neg h', if_neg h']
    · simp [insertOv, lookupA, hk, ih]

theorem mem_insertOv {α β : Type} [DecidableEq α]
    {l : List (α × β)} {a : α} {b : β} {p : α × β} (h : p ∈ insertOv l a b) :
    p = (a, b) ∨ p ∈ l := by
  induction l with
  | nil => simpa [insertOv] using h
  | cons q t ih =>
    obtain ⟨k, v⟩ := q
    by_cases hk : k = a
    · simp only [insertOv, if_pos hk, List.mem_cons] at h
      rcases h with h | h
      · exact Or.inl h
      · exact Or.inr (List.mem_cons_of_mem _ h)
    · simp only [insertOv, if_neg hk, List.mem_cons] at h
      rcases h with h | h
      · exact Or.inr (List.mem_cons.mpr (Or.inl h))
      · rcases ih h with h' | h'
        · exact Or.inl h'
        · exact Or.inr (List.mem_cons_of_mem _ h')

theorem lookupA_mem {α β : Type} [DecidableEq α]
    {l : List (α × β)} {a : α} {b : β} (h : lookupA l a = some b) : (a, b) ∈ l := by
  induction l with
  | nil => simp [lookupA] at h
  | cons q t ih =>
    obtain ⟨k, v⟩ := q
    by_cases hk : k = a
    · subst hk
      simp only [lookupA, if_pos, Option.some.injEq] at h
      simp [h]
    · simp only [lookupA, if_neg hk] at h
      exact List.mem_cons_of_mem _ (ih h)

theorem nodupKeys_mem_eq {α β : Type} [DecidableEq α]
    {l : List (α × β)} (hnd : (l.map Prod.fst).Nodup)
    {k : α} {a b : β} (ha : (k, a) ∈ l) (hb : (k, b) ∈ l) : a = b := by
  induction l with
  | nil => simp at ha
  | cons q t ih =>
    obtain ⟨k', v'⟩ := q
    simp only [List.map_cons, List.nodup_cons] at hnd
    rcases List.mem_cons.mp ha with ha' | ha' <;> rcases List.mem_cons.mp hb with hb' | hb'
    · simp only [Prod.mk.injEq] at ha' hb'
      exact ha'.2.trans hb'.2.symm
    · simp only [Prod.mk.injEq] at ha'
      exact absurd (List.mem_map.mpr ⟨(k, b), hb', ha'.1⟩) hnd.1
    · simp only [Prod.mk.injEq] at hb'
      exact absurd (List.mem_map.mpr ⟨(k, a), ha', hb'.1⟩) hnd.1
    · exact ih hnd.2 ha' hb'

/-! ## User-data parser: `extract_all_fields_from_text` (src/app11.py:103-153)

Three per-line strategies in priority order: colon format, dotted-leader
format, whitespace split.  The two regex strategies embed the patterns
`^([A-Za-z\s\/\(\)\[\]\-\.]+?)[:：]\s*(.+)$` and
`^([A-Za-z\s\/\(\)\[\]\-\.]+?)\s*[\.\-]{2,}\s*(.+)$` with Python's
lazy-group semantics (shortest label first). -/

/-- The character class `[A-Za-z\s\/\(\)\[\]\-\.]` shared by the colon and
dotted-leader label groups. -/
def labelClassB (c : Char) : Bool :=
  c.isAlpha || isWsB c || c = '/' || c = '(' || c = ')' || c = '[' || c = ']' ||
    c = '-' || c = '.'

/-- The tail `\s*(.+)$` applied to the text after the separator: fails on an
empty remainder; otherwise group 2 is the remainder minus its maximal
whitespace run (backtracking to the last whitespace character when the
remainder is all whitespace, as the greedy `\s*` gives back one character
so that `.+` can match). -/
def wsThenRest (rest : List Char) : Option (List Char) :=
  if rest.isEmpty then none
  else
    let r := rest.dropWhile isWsB
    some (if r.isEmpty then rest.drop (rest.length - 1) else r)

/-- Lazy scan for `([class]+?)[:：]`: the label is the shortest non-empty
class-character run followed directly by an ASCII or full-width colon. -/
def colonScan : List Char → List Char → Option (List Char × List Char)
  | _, [] => none
  | acc, c :: rest =>
    if (c = ':' || c = '：') && !acc.isEmpty then some (acc, rest)
    else if labelClassB c then colonScan (acc ++ [c]) rest
    else none

/-- `re.match` of the colon pattern, with both groups `.strip()`ed as in the
source. -/
def colonEntry (cs : List Char) : Option (List Char × List Char) :=
  match colonScan [] cs with
  | none => none
  | some (g1, rest) =>
    match wsThenRest rest with
    | none => none
    | some g2 => some (stripWsL g1, stripWsL g2)

def isDotDashB (c : Char) : Bool :=
  c = '.' || c = '-'

/-- Completion of the dotted-leader pattern after a candidate label: greedy
`\s*`, then `[\.\-]{2,}` (greedy, giving back its last character when
nothing would remain for `.+`), then `\s*(.+)$`. -/
def dotsTry (g1 rest : List Char) : Option (List Char × List Char) :=
  let w := rest.dropWhile isWsB
  let d := w.takeWhile isDotDashB
  let after := w.drop d.length
  if 2 ≤ d.length then
    if after.isEmpty then
      if 3 ≤ d.length then some (g1, d.drop (d.length - 1)) else none
    else
      match wsThenRest after with
      | none => none
      | some g2 => some (g1, g2)
  else none

/-- Lazy scan for the dotted-leader label: labels are tried shortest first,
each with the full completion attempt. -/
def dotsScan : List Char → List Char → Option (List Char × List Char)
  | _, [] => none
  | acc, c :: rest =>
    if labelClassB c then
      match dotsTry (acc ++ [c]) rest with
      | some r => some r
      | none => dotsScan (acc ++ [c]) rest
    else none

/-- `re.match` of the dotted-leader pattern, groups stripped. -/
def dotsEntry (cs : List Char) : Option (List Char × List Char) :=
  match dotsScan [] cs with
  | none => none
  | some (g1, g2) => some (stripWsL g1, stripWsL g2)

/-- The whitespace-split strategy: try candidate label token counts from
`min(5, len(words)) - 1` down to `1`, accepting the first split where both
joined parts have more than one character. -/
def spaceTryFrom (ws : List (List Char)) : Nat → Option (List Char × List Char)
  | 0 => none
  | k + 1 =>
    let lab := joinSp (ws.take (k + 1))
    let v := joinSp (ws.drop (k + 1))
    if 1 < lab.length && 1 < v.length then some (lab, v)
    else spaceTryFrom ws k

def spaceEntry (cs : List Char) : Option (List Char × List Char) :=
  let ws := splitWsL cs
  spaceTryFrom ws (min 5 ws.length - 1)

/-- `line.strip("• ").strip()`. -/
def cleanLine (cs : List Char) : List Char :=
  stripWsL (stripBoth isBulletSpB cs)

/-- One loop iteration of `extract_all_fields_from_text`: clean the line,
skip it if empty, otherwise apply the three strategies in priority order;
at most one entry per line. -/
def parseLine (raw : List Char) : Option (List Char × List Char) :=
  let L := cleanLine raw
  if L.isEmpty then none
  else
    match colonEntry L with
    | some e => some e
    | none =>
      match dotsEntry L with
      | some e => some e
      | none => spaceEntry L

/-- `extract_all_fields_from_text` (src/app11.py:103-153): fold the lines
into a dictionary, later lines overwriting earlier ones at the same label. -/
def extract_all_fields_from_text (text : String) : List (String × String) :=
  (splitLinesL text.toList).foldl
    (fun d line =>
      match parseLine line with
      | some (l, v) => insertOv d l.asString v.asString
      | none => d)
    []

/-! ## Flat-form slot enumeration: `extract_labels_from_text` (src/app11.py:27-38)

Per page and per line, `re.findall(r"(?:\d+\.\s*)?([A-Za-z\s\/\(\)]+):", line)`
collects candidate labels; each match is stripped and kept when longer than
one character.  The PDF text extraction itself (pdfplumber) is an external
collaborator; the function is modelled on the list of per-page extracted
texts. -/

/-- The character class `[A-Za-z\s\/\(\)]` of the label group (note: no
apostrophe, bracket, dash or dot). -/
def enumClassB (c : Char) : Bool :=
  c.isAlpha || isWsB c || c = '/' || c = '(' || c = ')'

/-- Match `([A-Za-z\s\/\(\)]+):` at the head of `cs`: the greedy class run
must be non-empty and be followed immediately by a colon (the class does
not contain `:`, so greedy backtracking can only succeed at the end of the
run).  Returns the group and the text after the colon. -/
def classRunColon (cs : List Char) : Option (List Char × List Char) :=
  let run := cs.takeWhile enumClassB
  let after := cs.drop run.length
  match after with
  | ':' :: rest => if run.isEmpty then none else some (run, rest)
  | _ => none

/-- One attempt of the full pattern at the current position.  The optional
ordinal `(?:\d+\.\s*)?` is tried first (greedy `?`); its `\s*` overlaps the
class run, so after the ordinal the group is the class run minus its
maximal whitespace run — backtracking to the final whitespace character
when the run is all whitespace. -/
def tryLabelAt (cs : List Char) : Option (List Char × List Char) :=
  match cs with
  | [] => none
  | c :: _ =>
    if c.isDigit then
      -- ordinal branch; if it fails, the no-ordinal branch also fails
      -- because a digit is not in the class
      let ds := cs.takeWhile Char.isDigit
      match cs.drop ds.length with
      | '.' :: rest =>
        match classRunColon rest with
        | none => none
        | some (run, after) =>
          let g := run.dropWhile isWsB
          some (if g.isEmpty then run.drop (run.length - 1) else g, after)
      | _ => none
    else
      classRunColon cs

/-- `re.findall` scan: advance one character on failure, continue after the
match on success.  Each match consumes at least two characters, so a fuel
of the line length suffices. -/
def labelFindAux : Nat → List Char → List (List Char)
  | 0, _ => []
  | _, [] => []
  | fuel + 1, cs =>
    match tryLabelAt cs with
    | some (g, after) => g :: labelFindAux fuel after
    | none => labelFindAux fuel cs.tail

def labelFindAll (cs : List Char) : List (List Char) :=
  labelFindAux cs.length cs

/-- Insertion into the collected label set.  The source uses a Python
`set` whose iteration order is unspecified; it is modelled as an
insertion-ordered duplicate-free list, and properties of the result are
stated via membership. -/
def setInsertL (l : List (List Char)) (s : List Char) : List (List Char) :=
  if s ∈ l then l else l ++ [s]

/-- `extract_labels_from_text` (src/app11.py:27-38), on the per-page
extracted texts. -/
def extract_labels_from_text (pages : List String) : List (List Char) :=
  pages.foldl
    (fun labels page =>
      (splitLinesL page.toList).foldl
        (fun labels line =>
          (labelFindAll line).foldl
            (fun labels g =>
              let clean := stripWsL g
              if 1 < clean.length then setInsertL labels clean else labels)
            labels)
        labels)
    []

/-! ## The expression evaluator used by `reconstruct_user_data`

`reconstruct_user_data` (src/app11.py:211-226) runs
`eval(user_key_expr, {}, raw_user_data)`.  CPython's `eval` inserts
`__builtins__` into a globals dictionary that lacks it, so the freshly
passed `{}` does give the expression access to all builtins; name lookup
goes locals (the user data) first, then globals/builtins.  The evaluator
is modelled for the expression forms relevant here: string literals,
identifiers, `+`, and calls; `len` stands in for the injected builtins.
A string that does not parse as such an expression models a
`SyntaxError` (evaluation fails), and any other runtime error
(`NameError`, `TypeError`) is likewise `none`. -/

inductive PyVal : Type
  | vStr (s : String)
  | vInt (n : Int)
  | builtinLen
deriving DecidableEq, Repr

/-- Python truthiness of the values above (`if value:`). -/
def truthy : PyVal → Bool
  | .vStr s => s != ""
  | .vInt n => n != 0
  | .builtinLen => true

inductive PyTok : Type
  | ident (s : String)
  | strLit (s : String)
  | plusT
  | lparT
  | rparT
deriving DecidableEq, Repr

def isIdentStartB (c : Char) : Bool :=
  c.isAlpha || c = '_'

def isIdentCharB (c : Char) : Bool :=
  c.isAlpha || c.isDigit || c = '_'

def squote : Char := Char.ofNat 39

/-- Tokenizer for the modelled expression subset.  String literals use
single or double quotes without escape sequences (the only literals the
mapper is asked to produce are plain separator strings). -/
def pyTokenizeAux : Nat → List Char → Option (List PyTok)
  | 0, [] => some []
  | 0, _ :: _ => none
  | _, [] => some []
  | fuel + 1, c :: cs =>
    if isWsB c then pyTokenizeAux fuel cs
    else if isIdentStartB c then
      let body := cs.takeWhile isIdentCharB
      match pyTokenizeAux fuel (cs.drop body.length) with
      | some ts => some (.ident (c :: body).asString :: ts)
      | none => none
    else if c = squote || c = '"' then
      let body := cs.takeWhile (fun d => d ≠ c)
      match cs.drop body.length with
      | _ :: rest =>
        match pyTokenizeAux fuel rest with
        | some ts => some (.strLit body.asString :: ts)
        | none => none
      | [] => none
    else if c = '+' then
      match pyTokenizeAux fuel cs with
      | some ts => some (.plusT :: ts)
      | none => none
    else if c = '(' then
      match pyTokenizeAux fuel cs with
      | some ts => some (.lparT :: ts)
      | none => none
    else if c = ')' then
      match pyTokenizeAux fuel cs with
      | some ts => some (.rparT :: ts)
      | none => none
    else none

def pyTokenize (s : String) : Option (List PyTok) :=
  pyTokenizeAux s.toList.length s.toList

inductive PyExpr : Type
  | lit (s : String)
  | name (n : String)
  | add (a b : PyExpr)
  | call (f : String) (arg : PyExpr)
deriving DecidableEq, Repr

/-- Parse an atom: a string literal, an identifier, or a one-argument call
of an identifier whose argument is itself an atom (covering the shape
`len(x)` produced here; the full Python grammar is wider, but any string
outside this subset simply models as an evaluation failure). -/
def pyParseAtom : Nat → List PyTok → Option (PyExpr × List PyTok)
  | 0, _ => none
  | _, .strLit s :: ts => some (.lit s, ts)
  | fuel + 1, .ident f :: .lparT :: ts =>
    match pyParseAtom fuel ts with
    | some (a, .rparT :: ts') => some (.call f a, ts')
    | _ => none
  | _, .ident n :: ts => some (.name n, ts)
  | _, _ => none

/-- Parse the tail of a left-associated `+` chain. -/
def pyParseAddLoop : Nat → PyExpr → List PyTok → Option (PyExpr × List PyTok)
  | 0, _, _ => none
  | fuel + 1, a, .plusT :: ts =>
    match pyParseAtom fuel ts with
    | none => none
    | some (b, rest) => pyParseAddLoop fuel (.add a b) rest
  | _, a, ts => some (a, ts)

/-- Parse a left-associated `+` chain of atoms. -/
def pyParseAdd (fuel : Nat) (ts : List PyTok) : Option (PyExpr × List PyTok) :=
  match pyParseAtom fuel ts with
  | none => none
  | some (a, rest) => pyParseAddLoop fuel a rest

/-- Full-expression parse: tokenize and require all tokens consumed
(Python's `eval` compiles the whole string as one expression). -/
def pyParse (s : String) : Option PyExpr :=
  match pyTokenize s with
  | none => none
  | some ts =>
    match pyParseAdd (ts.length + 1) ts with
    | some (e, []) => some e
    | _ => none

/-- Evaluate a parsed expression against the user data: names resolve in
the locals (`raw_user_data`) first, then in the builtins injected into the
empty globals (`len` modelled as the representative builtin); `+` is
string concatenation or integer addition; `len` of a string returns its
length; everything else is a runtime error (`none`). -/
def evalPyExpr (raw : List (String × String)) : PyExpr → Option PyVal
  | .lit s => some (.vStr s)
  | .name n =>
    match lookupA raw n with
    | some v => some (.vStr v)
    | none => if n = "len" then some .builtinLen else none
  | .add a b =>
    match evalPyExpr raw a, evalPyExpr raw b with
    | some (.vStr x), some (.vStr y) => some (.vStr (x ++ y))
    | some (.vInt x), some (.vInt y) => some (.vInt (x + y))
    | _, _ => none
  | .call f a =>
    -- callee resolved like `.name f` (inlined for structural recursion)
    let fv : Option PyVal :=
      match lookupA raw f with
      | some v => some (.vStr v)
      | none => if f = "len" then some .builtinLen else none
    match fv, evalPyExpr raw a with
    | some .builtinLen, some (.vStr s) => some (.vInt s.length)
    | _, _ => none

/-- `eval(user_key_expr, {}, raw_user_data)`: `none` models a raised
exception (syntax or runtime error). -/
def evalPyStr (expr : String) (raw : List (String × String)) : Option PyVal :=
  match pyParse expr with
  | none => none
  | some e => evalPyExpr raw e

/-! ## `reconstruct_user_data` (src/app11.py:211-226) -/

/-- The `try`/`except` around `eval`: try to evaluate the mapping value as
an expression; on failure fall back to `raw_user_data.get(user_key_expr)`
(the mapping values are strings in this model, so the `isinstance` guard
always passes, and a missing key gives `None`). -/
def resolveValue (raw : List (String × String)) (expr : String) : Option PyVal :=
  match evalPyStr expr raw with
  | some v => some v
  | none => (lookupA raw expr).map PyVal.vStr

/-- One loop iteration: skip `None` entries; resolve the mapping value;
store it only when truthy (`if value:`). -/
def reconstructStep (raw : List (String × String))
    (acc : List (String × PyVal)) (entry : String × Option String) :
    List (String × PyVal) :=
  match entry.2 with
  | none => acc
  | some expr =>
    match resolveValue raw expr with
    | some v => if truthy v then insertOv acc entry.1 v else acc
    | none => acc

def reconstruct_user_data (field_mapping : List (String × Option String))
    (raw_user_data : List (String × String)) : List (String × PyVal) :=
  field_mapping.foldl (reconstructStep raw_user_data) []

/-! ## Field-mapper response parsing (src/app11.py:192-208)

The model call itself is an external collaborator; what is embedded is the
treatment of the response text: `re.search(r"\{.*\}", content, re.DOTALL)`
followed by `ast.literal_eval`, with every failure path returning `{}`. -/

/-- The regex `\{.*\}` with `re.DOTALL`: leftmost match start is the first
`{`; the greedy `.*` makes the match extend to the last `}` of the whole
text.  There is a match iff some `}` occurs after the first `{`. -/
def extractDictStr (cs : List Char) : Option (List Char) :=
  match cs.findIdx? (fun c => c = '{') with
  | none => none
  | some i =>
    match cs.reverse.findIdx? (fun c => c = '}') with
    | none => none
    | some jr =>
      let j := cs.length - 1 - jr
      if i < j then some ((cs.drop i).take (j - i + 1)) else none

/-- A Python string literal without escapes (single or double quoted). -/
def parsePyStrLit (cs : List Char) : Option (String × List Char) :=
  match cs with
  | q :: rest =>
    if q = squote || q = '"' then
      let body := rest.takeWhile (fun d => d ≠ q)
      match rest.drop body.length with
      | _ :: rest' => some (body.asString, rest')
      | [] => none
    else none
  | [] => none

def skipWsL (cs : List Char) : List Char :=
  cs.dropWhile isWsB

/-- A dict value in the modelled subset: a string literal or `None`. -/
def parseDictVal (cs : List Char) : Option (Option String × List Char) :=
  match parsePyStrLit cs with
  | some (s, rest) => some (some s, rest)
  | none =>
    match cs with
    | 'N' :: 'o' :: 'n' :: 'e' :: rest => some (none, rest)
    | _ => none

/-- Entries of a dict literal after the opening `{` (first entry pending):
`key : value` pairs separated by commas, optional trailing comma, closing
`}`.  Duplicate keys follow Python semantics (last wins, via
`insertOv`). -/
def parseDictEntries : Nat → List Char → List (String × Option String) →
    Option (List (String × Option String) × List Char)
  | 0, _, _ => none
  | fuel + 1, cs, acc =>
    match parsePyStrLit (skipWsL cs) with
    | none => none
    | some (k, rest) =>
      match skipWsL rest with
      | ':' :: rest' =>
        match parseDictVal (skipWsL rest') with
        | none => none
        | some (v, rest'') =>
          let acc' := insertOv acc k v
          match skipWsL rest'' with
          | ',' :: rest3 =>
            match skipWsL rest3 with
            | '}' :: rest4 => some (acc', rest4)
            | _ => parseDictEntries fuel rest3 acc'
          | '}' :: rest3 => some (acc', rest3)
          | _ => none
      | _ => none

/-- `ast.literal_eval` restricted to dict literals whose keys are strings
and whose values are strings or `None` — the shape the mapper is asked to
produce.  Any other input models an evaluation error (`none`): in
particular trailing text after the closing brace is rejected, as
`literal_eval` requires the whole string to be a single literal. -/
def literalEvalDict (cs : List Char) : Option (List (String × Option String)) :=
  match skipWsL cs with
  | '{' :: r =>
    match skipWsL r with
    | '}' :: rest => if (skipWsL rest).isEmpty then some [] else none
    | _ =>
      match parseDictEntries (cs.length + 1) r [] with
      | some (fm, rest) => if (skipWsL rest).isEmpty then some fm else none
      | none => none
  | _ => none

/-- The parsing portion of `get_field_mapping_from_llm`
(src/app11.py:192-208), applied to the stripped model-response text:
extract the `\{.*\}` match and `literal_eval` it; any failure returns the
empty mapping, and no exception escapes. -/
def get_field_mapping_parse (response : String) : List (String × Option String) :=
  let content := stripWsL response.toList
  match extractDictStr content with
  | some dictStr =>
    match literalEvalDict dictStr with
    | some fm => fm
    | none => []
  | none => []

/-- Modelled from the spec: "locate the first balanced `{...}` substring in
the response text".  Scans to the first `{` and returns the substring up
to the brace that closes it, tracking nesting depth; this is the
specification-side reference against which the source's greedy regex
extraction is compared. -/
def takeBalancedAux : List Char → Nat → List Char → Option (List Char)
  | [], _, _ => none
  | c :: cs, d, acc =>
    if c = '{' then takeBalancedAux cs (d + 1) (acc ++ [c])
    else if c = '}' then
      if d ≤ 1 then some (acc ++ [c]) else takeBalancedAux cs (d - 1) (acc ++ [c])
    else takeBalancedAux cs d (acc ++ [c])

def specFirstBalanced (cs : List Char) : Option (List Char) :=
  match cs.dropWhile (fun c => c ≠ '{') with
  | [] => none
  | t => takeBalancedAux t 0 []

/-! ## Flat-form coordinate fill: `auto_fill_flat_pdf_smart` (src/app11.py:244-280)

The coordinate-computation half of the function is embedded.  A PDF page
is modelled as its `page.extract_words()` output: a list of words, each
with its text, right edge `x1` and vertical position `top`.  The source
coordinates are floats; they are modelled as exact integers — the
properties proved about the fill concern which line, word and page are
selected and how later assignments overwrite earlier ones, not the
numeric representation of coordinates.  Words sharing a rounded `top`
are grouped into lines in first-occurrence order, exactly as
`dict.setdefault(...).append(...)` builds them. -/

structure Word : Type where
  text : String
  x1 : ℤ
  top : ℤ
deriving DecidableEq, Repr

/-- `round(w['top'], 1)`, the line-grouping key; rounding to one decimal
place is the identity on the integer-modelled coordinates. -/
def roundKey (t : ℤ) : ℤ :=
  t

/-- `lines.setdefault(line_key, []).append(w)`: append to the group with
the same key, else open a new group at the end (Python dict insertion
order). -/
def addToLine (gs : List (ℤ × List Word)) (k : ℤ) (w : Word) : List (ℤ × List Word) :=
  match gs with
  | [] => [(k, [w])]
  | (k', ws) :: t => if k' = k then (k', ws ++ [w]) :: t else (k', ws) :: addToLine t k w

def buildLines (ws : List Word) : List (ℤ × List Word) :=
  ws.foldl (fun gs w => addToLine gs (roundKey w.top) w) []

/-- `" ".join(word['text'] for word in line_words)`. -/
def lineTextL (lw : List Word) : List Char :=
  joinSp (lw.map (fun w => w.text.toList))

/-- `label_key.lower() in line_text.lower()`. -/
def lineMatches (label : List Char) (lw : List Word) : Bool :=
  containsSubL (lowerL label) (lowerL (lineTextL lw))

/-- The anchor word of a matched line: the first word whose lowered text
equals the label's first token, defaulting to the line's first word
(the `for ... else` in the source).  A label with no tokens makes the
source raise `IndexError` on `label_key.split()[0]`; that degenerate case
is modelled as `none` and excluded by hypothesis where it matters. -/
def anchorWord (label : List Char) (lw : List Word) : Option Word :=
  match splitWsL label with
  | [] => none
  | t :: _ =>
    match lw.find? (fun w => lowerL w.text.toList = t.map Char.toLower) with
    | some w => some w
    | none => lw.head?

/-- The inner per-label loop over the page's lines: on the first matching
line, record `(label_x1 + 50, label_top)` of the anchor word and `break`;
otherwise keep scanning. -/
def scanLinesForLabel (label : List Char) : List (ℤ × List Word) → Option (ℤ × ℤ)
  | [] => none
  | (_, lw) :: rest =>
    if lineMatches label lw then (anchorWord label lw).map (fun w => (w.x1 + 50, w.top))
    else scanLinesForLabel label rest

/-- One page of the outer loop: for every user-data label that matches a
line of this page, overwrite its `coords_map` entry with this page's
index and insertion point. -/
def fillPage (lines : List (ℤ × List Word)) (i : ℕ)
    (m : List (List Char × (ℕ × ℤ × ℤ))) (labels : List (List Char)) :
    List (List Char × (ℕ × ℤ × ℤ)) :=
  labels.foldl
    (fun m' lab =>
      match scanLinesForLabel lab lines with
      | some c => insertOv m' lab (i, c)
      | none => m')
    m

def fillAux (labels : List (List Char)) :
    List (List Word) → ℕ → List (List Char × (ℕ × ℤ × ℤ)) →
    List (List Char × (ℕ × ℤ × ℤ))
  | [], _, m => m
  | p :: ps, i, m => fillAux labels ps (i + 1) (fillPage (buildLines p) i m labels)

/-- The `coords_map` computed by `auto_fill_flat_pdf_smart`
(src/app11.py:245-269) over the document's pages; the subsequent stamping
loop reads exactly this map. -/
def auto_fill_coords_map (pages : List (List Word)) (labels : List (List Char)) :
    List (List Char × (ℕ × ℤ × ℤ)) :=
  fillAux labels pages 0 []

/-- The last page (searching from index `i`) on which the label matches
some line, together with the coordinate computed there: later pages take
precedence, falling back to the current page. -/
def lastMatchFrom (label : List Char) (i : ℕ) : List (List Word) → Option (ℕ × ℤ × ℤ)
  | [] => none
  | p :: ps =>
    match lastMatchFrom label (i + 1) ps with
    | some r => some r
    | none => (scanLinesForLabel label (buildLines p)).map (fun c => (i, c.1, c.2))

/-! ## Supporting lemmas -/

theorem foldl_pres {α β : Type} (P : β → Prop) (f : List β → α → List β)
    (hf : ∀ acc a, (∀ x ∈ acc, P x) → ∀ x ∈ f acc a, P x) :
    ∀ (l : List α) (acc : List β), (∀ x ∈ acc, P x) → ∀ x ∈ l.foldl f acc, P x := by
  intro l
  induction l with
  | nil => intro acc hacc x hx; exact hacc x hx
  | cons a t ih => intro acc hacc x hx; exact ih _ (hf acc a hacc) x hx

theorem mem_setInsertL {l : List (List Char)} {s x : List Char}
    (h : x ∈ setInsertL l s) : x ∈ l ∨ x = s := by
  unfold setInsertL at h
  by_cases hs : s ∈ l
  · rw [if_pos hs] at h
    exact Or.inl h
  · rw [if_neg hs] at h
    rcases List.mem_append.mp h with h' | h'
    · exact Or.inl h'
    · exact Or.inr (List.mem_singleton.mp h')

/-- Every label collected by the enumerator has at least two characters
(the `len(clean) > 1` guard). -/
theorem extract_labels_min_length (pages : List String) :
    ∀ l ∈ extract_labels_from_text pages, 2 ≤ l.length := by
  unfold extract_labels_from_text
  refine foldl_pres _ _ ?_ pages [] (by simp)
  intro acc page hacc
  refine foldl_pres _ _ ?_ _ acc hacc
  intro acc2 line hacc2
  refine foldl_pres _ _ ?_ _ acc2 hacc2
  intro acc3 g hacc3 x hx
  dsimp only at hx
  by_cases hlen : 1 < (stripWsL g).length
  · rw [if_pos hlen] at hx
    rcases mem_setInsertL hx with h | h
    · exact hacc3 x h
    · subst h
      omega
  · rw [if_neg hlen] at hx
    exact hacc3 x hx

/-- Values held by the reconstructed table are always truthy. -/
theorem reconstruct_truthyAux (raw : List (String × String)) :
    ∀ (l : List (String × Option String)) (acc : List (String × PyVal)),
      (∀ p ∈ acc, truthy p.2 = true) →
      ∀ p ∈ l.foldl (reconstructStep raw) acc, truthy p.2 = true := by
  intro l
  refine foldl_pres _ _ ?_ l
  intro acc entry hacc p hp
  obtain ⟨f, e⟩ := entry
  cases e with
  | none => exact hacc p hp
  | some expr =>
    simp only [reconstructStep] at hp
    cases hrv : resolveValue raw expr with
    | none =>
      simp only [hrv] at hp
      exact hacc p hp
    | some v =>
      simp only [hrv] at hp
      by_cases ht : truthy v = true
      · rw [if_pos ht] at hp
        rcases mem_insertOv hp with h | h
        · rw [h]
          exact ht
        · exact hacc p h
      · rw [if_neg ht] at hp
        exact hacc p hp

/-- Every binding of the reconstructed table stems from a non-`None`
mapping entry for the same slot. -/
theorem reconstruct_srcAux (raw : List (String × String)) :
    ∀ (l : List (String × Option String)) (acc : List (String × PyVal))
      (p : String × PyVal), p ∈ l.foldl (reconstructStep raw) acc →
      p ∈ acc ∨ ∃ e, (p.1, some e) ∈ l := by
  intro l
  induction l with
  | nil =>
    intro acc p hp
    exact Or.inl hp
  | cons entry t ih =>
    intro acc p hp
    rw [List.foldl_cons] at hp
    rcases ih _ p hp with h | ⟨e, he⟩
    · obtain ⟨f, ev⟩ := entry
      cases ev with
      | none => exact Or.inl h
      | some expr =>
        simp only [reconstructStep] at h
        cases hrv : resolveValue raw expr with
        | none =>
          simp only [hrv] at h
          exact Or.inl h
        | some v =>
          simp only [hrv] at h
          by_cases ht : truthy v = true
          · rw [if_pos ht] at h
            rcases mem_insertOv h with h' | h'
            · refine Or.inr ⟨expr, ?_⟩
              rw [h']
              exact List.mem_cons_self _ _
            · exact Or.inl h'
          · rw [if_neg ht] at h
            exact Or.inl h
    · exact Or.inr ⟨e, List.mem_cons_of_mem _ he⟩

/-- Entries whose slot never occurs in the remaining mapping do not change
under the fold. -/
theorem reconstruct_lookup_notMem (raw : List (String × String)) (X : String) :
    ∀ (l : List (String × Option String)) (acc : List (String × PyVal)),
      (∀ p ∈ l, p.1 ≠ X) →
      lookupA (l.foldl (reconstructStep raw) acc) X = lookupA acc X := by
  intro l
  induction l with
  | nil =>
    intro acc _
    rfl
  | cons entry t ih =>
    intro acc hl
    rw [List.foldl_cons, ih _ (fun p hp => hl p (List.mem_cons_of_mem _ hp))]
    obtain ⟨f, ev⟩ := entry
    have hf : f ≠ X := hl (f, ev) (List.mem_cons_self _ _)
    cases ev with
    | none => rfl
    | some expr =>
      simp only [reconstructStep]
      cases hrv : resolveValue raw expr with
      | none => simp only [hrv]
      | some v =>
        simp only [hrv]
        by_cases ht : truthy v = true
        · rw [if_pos ht]
          exact lookupA_insertOv_ne _ _ _ _ (fun hc => hf hc.symm)
        · rw [if_neg ht]

/-- The fold underlying `reconstruct_user_data`, on a mapping with unique
slot names: the slot mapped to `Y` receives the non-empty value `v` of
`Y` whenever the expression evaluation either fails or itself yields
`v`. -/
theorem reconstructFold_lookup (raw : List (String × String)) (X Y v : String)
    (hv : lookupA raw Y = some v) (hne : v ≠ "")
    (he : evalPyStr Y raw = none ∨ evalPyStr Y raw = some (PyVal.vStr v)) :
    ∀ (l : List (String × Option String)) (acc : List (String × PyVal)),
      (l.map Prod.fst).Nodup → lookupA l X = some (some Y) →
      lookupA (l.foldl (reconstructStep raw) acc) X = some (PyVal.vStr v) := by
  have hres : resolveValue raw Y = some (PyVal.vStr v) := by
    rcases he with h | h
    · simp [resolveValue, h, hv]
    · simp [resolveValue, h]
  have ht : truthy (PyVal.vStr v) = true := by
    simpa [truthy] using hne
  intro l
  induction l with
  | nil =>
    intro acc _ hX
    simp [lookupA] at hX
  | cons entry t ih =>
    intro acc hnd hX
    obtain ⟨f, ev⟩ := entry
    simp only [List.map_cons, List.nodup_cons] at hnd
    rw [List.foldl_cons]
    by_cases hf : f = X
    · have hev : ev = some Y := by
        simp only [lookupA, if_pos hf, Option.some.injEq] at hX
        exact hX
      subst hev
      subst hf
      have hstep : reconstructStep raw acc (f, some Y) = insertOv acc f (PyVal.vStr v) := by
        simp only [reconstructStep, hres, if_pos ht]
      rw [hstep]
      have htail : ∀ p ∈ t, p.1 ≠ f := by
        intro p hp hc
        exact hnd.1 (List.mem_map.mpr ⟨p, hp, hc⟩)
      rw [reconstruct_lookup_notMem raw f t _ htail]
      exact lookupA_insertOv_self _ _ _
    · simp only [lookupA, if_neg hf] at hX
      exact ih _ hnd.2 hX

/-- One step of the per-page label fold. -/
def fillStep (lines : List (ℤ × List Word)) (i : ℕ)
    (m : List (List Char × (ℕ × ℤ × ℤ))) (lab : List Char) :
    List (List Char × (ℕ × ℤ × ℤ)) :=
  match scanLinesForLabel lab lines with
  | some c => insertOv m lab (i, c)
  | none => m

theorem fillPage_eq_foldl (lines : List (ℤ × List Word)) (i : ℕ)
    (m : List (List Char × (ℕ × ℤ × ℤ))) (labels : List (List Char)) :
    fillPage lines i m labels = labels.foldl (fillStep lines i) m := rfl

theorem lookupA_fillStep_ne (lines : List (ℤ × List Word)) (i : ℕ)
    (m : List (List Char × (ℕ × ℤ × ℤ))) (l lab : List Char) (hl : l ≠ lab) :
    lookupA (fillStep lines i m l) lab = lookupA m lab := by
  unfold fillStep
  cases hs : scanLinesForLabel l lines with
  | none => simp only
  | some c =>
    simp only
    exact lookupA_insertOv_ne _ _ _ _ (fun hc => hl hc.symm)

/-- `fillPage` leaves untouched the entries of labels it does not
process. -/
theorem fillPage_lookup_notMem (lines : List (ℤ × List Word)) (i : ℕ)
    (lab : List Char) :
    ∀ (labels : List (List Char)) (m : List (List Char × (ℕ × ℤ × ℤ))),
      lab ∉ labels → lookupA (fillPage lines i m labels) lab = lookupA m lab := by
  intro labels
  induction labels with
  | nil =>
    intro m _
    rfl
  | cons l t ih =>
    intro m hmem
    have hl : l ≠ lab := fun hc => hmem (hc ▸ List.mem_cons_self _ _)
    have ht : lab ∉ t := fun hc => hmem (List.mem_cons_of_mem _ hc)
    rw [fillPage_eq_foldl, List.foldl_cons, ← fillPage_eq_foldl, ih _ ht]
    exact lookupA_fillStep_ne lines i m l lab hl

/-- `fillPage` on a processed label: a line match on this page overwrites
the entry with this page's coordinate; otherwise the entry is
unchanged. -/
theorem fillPage_lookup_mem (lines : List (ℤ × List Word)) (i : ℕ)
    (lab : List Char) :
    ∀ (labels : List (List Char)) (m : List (List Char × (ℕ × ℤ × ℤ))),
      lab ∈ labels →
      lookupA (fillPage lines i m labels) lab =
        match scanLinesForLabel lab lines with
        | some c => some (i, c)
        | none => lookupA m lab := by
  intro labels
  induction labels with
  | nil =>
    intro m hmem
    simp at hmem
  | cons l t ih =>
    intro m hmem
    rw [fillPage_eq_foldl, List.foldl_cons, ← fillPage_eq_foldl]
    by_cases htail : lab ∈ t
    · rw [ih _ htail]
      cases hs : scanLinesForLabel lab lines with
      | some c => simp only
      | none =>
        simp only
        by_cases hl : l = lab
        · unfold fillStep
          rw [hl, hs]
        · exact lookupA_fillStep_ne lines i m l lab hl
    · have hl : l = lab := by
        rcases List.mem_cons.mp hmem with h | h
        · exact h.symm
        · exact absurd h htail
      rw [fillPage_lookup_notMem lines i lab t _ htail, hl]
      unfold fillStep
      cases hs : scanLinesForLabel lab lines with
      | some c =>
        simp only
        exact lookupA_insertOv_self _ _ _
      | none => simp only

/-- The page fold computes, for each processed label, the coordinate of
its last matching page (falling back to the incoming map). -/
theorem fillAux_lookup (lab : List Char) (labels : List (List Char))
    (hmem : lab ∈ labels) :
    ∀ (ps : List (List Word)) (i : ℕ) (m : List (List Char × (ℕ × ℤ × ℤ))),
      lookupA (fillAux labels ps i m) lab =
        match lastMatchFrom lab i ps with
        | some r => some r
        | none => lookupA m lab := by
  intro ps
  induction ps with
  | nil =>
    intro i m
    simp only [fillAux, lastMatchFrom]
  | cons p t ih =>
    intro i m
    show lookupA (fillAux labels t (i + 1) (fillPage (buildLines p) i m labels)) lab = _
    rw [ih (i + 1) (fillPage (buildLines p) i m labels)]
    cases hlast : lastMatchFrom lab (i + 1) t with
    | some r => simp only [lastMatchFrom, hlast]
    | none =>
      simp only [lastMatchFrom, hlast]
      rw [fillPage_lookup_mem (buildLines p) i lab labels m hmem]
      cases hs : scanLinesForLabel lab (buildLines p) with
      | some c => simp [hs]
      | none => simp [hs]

/-! ## Claim theorems -/

/-- C1 (counterexample): the claim that the expression environment of the
Data Reconstructor has no builtins available is false — the mapping value
`len(First)` references the builtin `len`, evaluates successfully against
the user data, and its result is stored in the reconstructed table. -/
theorem C1_counterexample :
    reconstruct_user_data [("X", some "len(First)")] [("First", "Ali")] =
      [("X", PyVal.vInt 3)] ∧
    evalPyStr "len(First)" [("First", "Ali")] = some (PyVal.vInt 3) :=
  ⟨by decide, by decide⟩

/-- C1 (amended): expressions are evaluated with the user-data labels
bound as local variables and a freshly passed empty globals dictionary,
but CPython injects `__builtins__` into that dictionary, so builtin names
remain available to expressions and evaluation can succeed through them;
only names bound neither in the user data nor among the builtins fail. -/
theorem C1_eval_environment :
    evalPyStr "First" [("First", "Ali")] = some (PyVal.vStr "Ali") ∧
    evalPyStr "len" [] = some PyVal.builtinLen ∧
    evalPyStr "len(First)" [("First", "Ali")] = some (PyVal.vInt 3) ∧
    evalPyStr "nosuchname" [] = none :=
  ⟨by decide, by decide, by decide, by decide⟩

/-- C2 (counterexample): on the line whose tokens are
`["Full","Name","John","Smith"]`, the whitespace-split strategy does not
choose the label `"Full Name"`: the candidate label lengths range only up
to `min(5, len(words)) - 1 = 3` tokens, the longest is tried first, and
both parts of that split already exceed one character, so the stored
label is `"Full Name John"`. -/
theorem C2_counterexample :
    extract_all_fields_from_text "Full Name John Smith" =
      [("Full Name John", "Smith")] ∧
    lookupA (extract_all_fields_from_text "Full Name John Smith") "Full Name" =
      none :=
  ⟨by decide, by decide⟩

/-- C2 (amended): the line matches neither the colon nor the dotted-leader
pattern; the whitespace-split strategy tries candidate label lengths from
longest (three leading tokens here) to shortest and accepts the first
split where both label and value exceed one character, choosing
`"Full Name John"` over the shorter candidates. -/
theorem C2_whitespace_longest :
    colonEntry (cleanLine "Full Name John Smith".toList) = none ∧
    dotsEntry (cleanLine "Full Name John Smith".toList) = none ∧
    spaceEntry ("Full Name John Smith".toList) =
      some ("Full Name John".toList, "Smith".toList) ∧
    parseLine ("Full Name John Smith".toList) =
      some ("Full Name John".toList, "Smith".toList) :=
  ⟨by decide, by decide, by decide, by decide⟩

/-- C3 (counterexample): flat-form label enumeration on the page
`"3. Father's Name:"` does not yield `"Father's Name"` — the regex class
`[A-Za-z\s\/\(\)]` contains no apostrophe, so the match begins after it
and the collected label is `"s Name"`. -/
theorem C3_counterexample :
    extract_labels_from_text ["3. Father's Name:"] = ["s Name".toList] ∧
    ("Father's Name".toList) ∉ extract_labels_from_text ["3. Father's Name:"] :=
  ⟨by decide, by decide⟩

/-- C3 (amended): on the page `"3. Father's Name:"` the enumerator yields
exactly the label `"s Name"` (the leading ordinal and trailing colon are
outside the group, and the apostrophe — absent from the character class —
cuts the match short); in general every collected label has at least two
characters after trimming. -/
theorem C3_label_extraction :
    extract_labels_from_text ["3. Father's Name:"] = ["s Name".toList] ∧
    ∀ (pages : List String) (l : List Char),
      l ∈ extract_labels_from_text pages → 2 ≤ l.length :=
  ⟨by decide, fun pages l h => extract_labels_min_length pages l h⟩

theorem C3_witness :
    ("s Name".toList ∈ extract_labels_from_text ["3. Father's Name:"]) ∧
    2 ≤ ("s Name".toList).length :=
  ⟨by decide, C3_label_extraction.2 ["3. Father's Name:"] ("s Name".toList) (by decide)⟩

/-- C4 (counterexample): the Field Mapper does not parse the first
balanced `{...}` substring: on a response holding two balanced dicts the
greedy `\{.*\}` match runs from the first `{` to the last `}`, which is
not a literal, so the component returns the empty mapping even though the
first balanced substring parses to a non-empty one. -/
theorem C4_counterexample :
    get_field_mapping_parse "\x7b'a': 'x'\x7d \x7b'b': 'y'\x7d" = [] ∧
    specFirstBalanced (("\x7b'a': 'x'\x7d \x7b'b': 'y'\x7d" : String).toList) =
      some ("\x7b'a': 'x'\x7d".toList) ∧
    literalEvalDict ("\x7b'a': 'x'\x7d".toList) = some [("a", some "x")] :=
  ⟨by decide, by decide, by decide⟩

/-- C4 (amended): the Field Mapper parses the substring running from the
first `{` to the last `}` of the response; whenever that extraction fails
or the extracted substring is not a well-formed literal, the result is
the empty mapping — no slot is filled — and no exception is raised (the
parse is a total function). -/
theorem C4_empty_on_failure (response : String)
    (h : (extractDictStr (stripWsL response.toList)).bind literalEvalDict = none) :
    get_field_mapping_parse response = [] := by
  unfold get_field_mapping_parse
  cases hx : extractDictStr (stripWsL response.toList) with
  | none => simp only [hx]
  | some s =>
    rw [hx] at h
    have h' : literalEvalDict s = none := by simpa using h
    simp only [hx, h']

theorem C4_witness :
    ((extractDictStr (stripWsL ("not json" : String).toList)).bind literalEvalDict
      = none) ∧
    get_field_mapping_parse "not json" = [] :=
  ⟨by decide, C4_empty_on_failure "not json" (by decide)⟩

/-- C5 (counterexample): the mapping-round-trip claim fails when the
user-data value is empty: with `FieldMapping["X"] = "Y"` and `Y` present
with value `""`, the truthiness guard drops the slot, so reconstruction
does not yield `"X" -> ""`. -/
theorem C5_counterexample :
    lookupA [("Y", "")] "Y" = some "" ∧
    reconstruct_user_data [("X", some "Y")] [("Y", "")] = [] :=
  ⟨by decide, by decide⟩

/-- C5 (amended): if `FieldMapping["X"] = "Y"`, `Y` exists in the user
data with a non-empty value `v`, and evaluating `"Y"` as an expression
either fails (so the mapping value is used as a literal key) or itself
yields `v` (as it does when `Y` is a plain identifier, since locals are
consulted first), then reconstruction yields `"X" -> v`. -/
theorem C5_mapping_round_trip (fm : List (String × Option String))
    (raw : List (String × String)) (X Y v : String)
    (hnd : (fm.map Prod.fst).Nodup)
    (hm : lookupA fm X = some (some Y))
    (hv : lookupA raw Y = some v)
    (hne : v ≠ "")
    (he : evalPyStr Y raw = none ∨ evalPyStr Y raw = some (PyVal.vStr v)) :
    lookupA (reconstruct_user_data fm raw) X = some (PyVal.vStr v) :=
  reconstructFold_lookup raw X Y v hv hne he fm [] hnd hm

theorem C5_witness :
    lookupA (reconstruct_user_data [("X", some "Full Name")] [("Full Name", "v")])
      "X" = some (PyVal.vStr "v") :=
  C5_mapping_round_trip [("X", some "Full Name")] [("Full Name", "v")]
    "X" "Full Name" "v" (by decide) (by decide) (by decide) (by decide)
    (Or.inl (by decide))

/-- C6: the reconstructed slot→value table never contains a slot whose
mapping entry is `null`, and every value it contains is truthy — no slot
is ever written with an empty string. -/
theorem C6_no_null_no_falsy (fm : List (String × Option String))
    (raw : List (String × String)) (f : String) (v : PyVal)
    (hnd : (fm.map Prod.fst).Nodup)
    (hmem : (f, v) ∈ reconstruct_user_data fm raw) :
    lookupA fm f ≠ some none ∧ truthy v = true := by
  constructor
  · intro hl
    have hfnone : (f, (none : Option String)) ∈ fm := lookupA_mem hl
    rcases reconstruct_srcAux raw fm [] (f, v) hmem with h | ⟨e, he⟩
    · simp at h
    · have := nodupKeys_mem_eq hnd hfnone he
      simp at this
  · exact reconstruct_truthyAux raw fm [] (by simp) (f, v) hmem

theorem C6_witness :
    (("B", PyVal.vStr "hi") ∈
      reconstruct_user_data [("A", none), ("B", some "Full Name")]
        [("Full Name", "hi")]) ∧
    (lookupA [("A", (none : Option String)), ("B", some "Full Name")] "B" ≠
        some none ∧
      truthy (PyVal.vStr "hi") = true) :=
  ⟨by decide,
    C6_no_null_no_falsy [("A", none), ("B", some "Full Name")] [("Full Name", "hi")]
      "B" (PyVal.vStr "hi") (by decide) (by decide)⟩

/-- C7: reconstructing `FieldMapping["Name"] = "First + ' ' + Last"`
against user data `First = "Ali"`, `Last = "Khan"` yields
`"Name" -> "Ali Khan"` through the computed-expression path. -/
theorem C7_expression_concat :
    reconstruct_user_data [("Name", some "First + ' ' + Last")]
      [("First", "Ali"), ("Last", "Khan")] =
      [("Name", PyVal.vStr "Ali Khan")] := by
  decide

/-- C8: the per-line strategies run in strict priority order with first
match wins and at most one entry per line; any line matching both the
colon and the dotted-leader pattern is parsed by the colon strategy, and
its label and value are those of the colon split. -/
theorem C8_colon_priority (raw l v : List Char)
    (hc : colonEntry (cleanLine raw) = some (l, v))
    (hd : (dotsEntry (cleanLine raw)).isSome = true) :
    parseLine raw = some (l, v) := by
  have hne : (cleanLine raw).isEmpty = false := by
    cases hemp : (cleanLine raw).isEmpty
    · rfl
    · exfalso
      have hnil : cleanLine raw = [] := by
        simpa [List.isEmpty_iff] using hemp
      rw [hnil] at hc
      simp [colonEntry, colonScan] at hc
  simp [parseLine, hne, hc]

theorem C8_witness :
    (colonEntry (cleanLine "Name....Ali: Khan".toList) =
      some ("Name....Ali".toList, "Khan".toList)) ∧
    ((dotsEntry (cleanLine "Name....Ali: Khan".toList)).isSome = true) ∧
    parseLine ("Name....Ali: Khan".toList) =
      some ("Name....Ali".toList, "Khan".toList) :=
  ⟨by decide, by decide,
    C8_colon_priority ("Name....Ali: Khan".toList) ("Name....Ali".toList)
      ("Khan".toList) (by decide) (by decide)⟩

/-- C9: within a page, only the first qualifying line determines a
label's insertion coordinate — the first line whose concatenated word
text contains the label case-insensitively — and the coordinate is 50
units right of the anchor word's right edge at the anchor's vertical
position, where the anchor is the word matching the label's first token
(defaulting to the line's first word); all later lines, including later
occurrences of the label text, are ignored. -/
theorem C9_first_line_anchor (label : List Char) (pre post : List (ℤ × List Word))
    (g : ℤ × List Word)
    (hpre : ∀ p ∈ pre, lineMatches label p.2 = false)
    (hg : lineMatches label g.2 = true) :
    scanLinesForLabel label (pre ++ g :: post) =
      (anchorWord label g.2).map (fun w => (w.x1 + 50, w.top)) := by
  induction pre with
  | nil =>
    obtain ⟨k, lw⟩ := g
    simp only [List.nil_append, scanLinesForLabel]
    simp only at hg
    rw [if_pos hg]
  | cons q qre ih =>
    have hq := hpre q (List.mem_cons_self _ _)
    obtain ⟨k, lw⟩ := q
    simp only [List.cons_append, scanLinesForLabel]
    simp only at hq
    rw [if_neg (by simp [hq])]
    exact ih (fun p hp => hpre p (List.mem_cons_of_mem _ hp))

theorem C9_witness :
    scanLinesForLabel ("Name".toList)
      ([(0, [⟨"Other", 5, 0⟩])] ++
        (9, [⟨"Full", 10, 9⟩, ⟨"Name", 30, 9⟩]) :: [(20, [⟨"Name", 99, 20⟩])]) =
      some (80, 9) :=
  (C9_first_line_anchor ("Name".toList) [(0, [⟨"Other", 5, 0⟩])]
      [(20, [⟨"Name", 99, 20⟩])] (9, [⟨"Full", 10, 9⟩, ⟨"Name", 30, 9⟩])
      (by decide) (by decide)).trans (by decide)

/-- C10: when a label's text matches lines on several pages, the recorded
coordinate is the one computed on the last matching page — the per-page
scan does not stop after the first matching page, and each later page's
assignment overwrites the earlier `coords_map` entry. -/
theorem C10_last_page_wins (pages : List (List Word)) (labels : List (List Char))
    (label : List Char) (hmem : label ∈ labels) :
    lookupA (auto_fill_coords_map pages labels) label =
      lastMatchFrom label 0 pages := by
  unfold auto_fill_coords_map
  rw [fillAux_lookup label labels hmem pages 0 []]
  cases lastMatchFrom label 0 pages with
  | some r => simp only
  | none => simp only [lookupA]

theorem C10_witness :
    lookupA
      (auto_fill_coords_map [[⟨"Name", 10, 5⟩], [⟨"Name", 20, 7⟩]]
        ["Name".toList])
      ("Name".toList) = some (1, 70, 7) :=
  (C10_last_page_wins [[⟨"Name", 10, 5⟩], [⟨"Name", 20, 7⟩]] ["Name".toList]
      ("Name".toList) (by decide)).trans (by decide)
